import Mathlib

/-!
Verification of the variable-domain parser/specializer engine of the
PRE_netzob repository, as a shallow embedding in Lean 4.

Bits are modelled as `Bool`, bit sequences as `List Bool`, bytes as `Nat`
(each byte value `< 256`), byte strings as `List Nat`.  Python generators
become Lean lists (yield order is list order); a raised exception that
the caller observes becomes `Option.none`/an empty result, as noted on
each definition.  Every definition is translated from the corresponding
Python source, except where the doc comment starts with
`Modelled from the spec:` because the Python class is not part of the
source tree.
-/

namespace Netzob

/-! ## BitArray type (src/netzob/Model/Vocabulary/Types/BitArray.py) -/

/-- The `BitArray` data type: an optional fixed value and the declared
bit-length bounds `(nbMinBits, nbMaxBits)` (the `size` tuple, where a
`none` bound means unbounded). -/
structure BitArray where
  value : Option (List Bool)
  nbMinBits : Option Nat
  nbMaxBits : Option Nat
deriving DecidableEq

/-- Python `nbMin is not None and nbMin > nbBitsData` from
`BitArray.canParse`. -/
def sizeMinRejects : Option Nat → Nat → Bool
  | some nbMinBits, nbBitsData => decide (nbMinBits > nbBitsData)
  | none, _ => false

/-- Python `nbMax is not None and nbMax < nbBitsData` from
`BitArray.canParse`. -/
def sizeMaxRejects : Option Nat → Nat → Bool
  | some nbMaxBits, nbBitsData => decide (nbMaxBits < nbBitsData)
  | none, _ => false

/-- The method `BitArray.canParse` (BitArray.py lines 202-257): empty data is
rejected; then, if a fixed value is set and equals the data, accept;
otherwise accept exactly when the bit length of the data is within the
declared `(min, max)` bounds. -/
def BitArray.canParse (t : BitArray) (data : List Bool) : Bool :=
  if data.length = 0 then false
  else if t.value = some data then true
  else if sizeMinRejects t.nbMinBits data.length then false
  else if sizeMaxRejects t.nbMaxBits data.length then false
  else true

lemma sizeMinRejects_eq_false (mn : Option Nat) (n : Nat) :
    sizeMinRejects mn n = false ↔ (∀ m, mn = some m → m ≤ n) := by
  cases mn <;> simp [sizeMinRejects, Nat.not_lt]

lemma sizeMaxRejects_eq_false (mx : Option Nat) (n : Nat) :
    sizeMaxRejects mx n = false ↔ (∀ M, mx = some M → n ≤ M) := by
  cases mx <;> simp [sizeMaxRejects, Nat.not_lt]

/-- The fixed-value BitArray `BitArray('11110101')` from the
`canParse` doctest: a set value and no explicit bit-length bounds. -/
def bitArrayFixedExample : BitArray :=
  { value := some [true, true, true, true, false, true, false, true]
    nbMinBits := none
    nbMaxBits := none }

/-! ## AlternativeMutator (src/netzob/Fuzzing/AlternativeMutator.py) -/

/-- The constant `AlternativeMutator.DEFAULT_MAX_DEPTH` (AlternativeMutator.py line 99). -/
def AlternativeMutator.DEFAULT_MAX_DEPTH : Nat := 20

/-- One call to `AlternativeMutator.generate` (AlternativeMutator.py lines
205-230), restricted to its depth bookkeeping: the per-Alt counter
`_currentDepth` is incremented, then `RecursionException` is raised
(modelled as `none`) when the incremented counter has reached
`_maxDepth`; otherwise the position drawn by the position mutator
(abstracted as the argument `pos`) is returned.  The first component is
the returned position (or `none` on raise), the second the new counter. -/
def AlternativeMutator.generate (maxDepth currentDepth : Nat)
    (pos : Nat) : Option Nat × Nat :=
  let d := currentDepth + 1
  if maxDepth ≤ d then (none, d) else (some pos, d)

/-- Runs `n` successive calls to `AlternativeMutator.generate` starting from
depth counter `d`, counting the calls that return a value (instead of
raising). -/
def AlternativeMutator.run (maxDepth : Nat) : Nat → Nat → Nat
  | _, 0 => 0
  | d, n + 1 =>
    (if (AlternativeMutator.generate maxDepth d 0).1.isSome then 1 else 0) +
      AlternativeMutator.run maxDepth (AlternativeMutator.generate maxDepth d 0).2 n

lemma AlternativeMutator.generate_snd (D d pos : Nat) :
    (AlternativeMutator.generate D d pos).2 = d + 1 := by
  unfold AlternativeMutator.generate
  by_cases h : D ≤ d + 1 <;> simp [h]

lemma AlternativeMutator.run_eq (D : Nat) :
    ∀ n d, AlternativeMutator.run D d n = min n (D - 1 - d) := by
  intro n
  induction n with
  | zero => intro d; simp [AlternativeMutator.run]
  | succ n ih =>
    intro d
    unfold AlternativeMutator.run AlternativeMutator.generate
    by_cases h : D ≤ d + 1
    · simp only [h, if_true]
      rw [ih (d + 1)]
      simp only [Option.isSome_none, Bool.false_eq_true, if_false]
      omega
    · simp only [h, if_false]
      rw [ih (d + 1)]
      simp only [Option.isSome_some, if_true]
      omega

/-! ## Integer type (src/netzob/Model/Vocabulary/Types/Integer.py) -/

/-- Endianness tag (`Endianness.BIG` / `Endianness.LITTLE`). -/
inductive Endianness where
  | big
  | little
deriving DecidableEq

/-- Sign tag (`Sign.SIGNED` / `Sign.UNSIGNED`). -/
inductive Sign where
  | signed
  | unsigned
deriving DecidableEq

/-- Storage unit size (`UnitSize.SIZE_8/16/32/64`). -/
inductive UnitSize where
  | SIZE_8
  | SIZE_16
  | SIZE_32
  | SIZE_64
deriving DecidableEq

/-- The width `unitSize.value` in bits. -/
def UnitSize.value : UnitSize → Nat
  | .SIZE_8 => 8
  | .SIZE_16 => 16
  | .SIZE_32 => 32
  | .SIZE_64 => 64

/-- The function `getMinStorageValue` (Integer.py lines 701-705). -/
def getMinStorageValue (u : UnitSize) (s : Sign) : Int :=
  match s with
  | .unsigned => 0
  | .signed => -((2 : Int) ^ u.value / 2)

/-- The function `getMaxStorageValue` (Integer.py lines 708-712). -/
def getMaxStorageValue (u : UnitSize) (s : Sign) : Int :=
  match s with
  | .unsigned => (2 : Int) ^ u.value - 1
  | .signed => (2 : Int) ^ u.value / 2 - 1

/-- The `k` bytes of `n`, most significant first (the byte view used by
`struct.pack`; `n` is taken modulo `256 ^ k`). -/
def bytesBE : Nat → Nat → List Nat
  | 0, _ => []
  | k + 1, n => bytesBE k (n / 256) ++ [n % 256]

/-- Read back a most-significant-first byte list as a natural number. -/
def bytesToNatBE (l : List Nat) : Nat :=
  l.foldl (fun acc b => acc * 256 + b) 0

/-- Apply the endianness to a most-significant-first byte list: big
endian keeps it, little endian reverses it (the `>`/`<` of
`computeFormat`, Integer.py lines 600-628). -/
def byteOrder (e : Endianness) (bs : List Nat) : List Nat :=
  match e with
  | .big => bs
  | .little => bs.reverse

/-- The call `struct.pack(computeFormat(u, e, s), v)`: the `u.value / 8`-byte
two's-complement representation of `v` in endianness `e`, or `none`
(`struct.error`) when `v` is outside the storage range of `(u, s)`. -/
def structPack (u : UnitSize) (e : Endianness) (s : Sign) (v : Int) :
    Option (List Nat) :=
  if v < getMinStorageValue u s ∨ getMaxStorageValue u s < v then none
  else some (byteOrder e (bytesBE (u.value / 8) ((v % (2 : Int) ^ u.value).toNat)))

/-- The call `struct.unpack(computeFormat(u, e, s), bs)[0]` for a word `bs` of
exactly `u.value / 8` bytes: byte order per `e`, then two's-complement
interpretation per `s`. -/
def structUnpack (u : UnitSize) (e : Endianness) (s : Sign)
    (bs : List Nat) : Int :=
  let n := bytesToNatBE (byteOrder e bs)
  match s with
  | .unsigned => (n : Int)
  | .signed => if n < 2 ^ (u.value - 1) then (n : Int) else (n : Int) - (2 : Int) ^ u.value

/-- The method `Integer.decode` (Integer.py lines 440-497):
`struct.pack(computeFormat(unitSize, endianness, sign), int(data))`. -/
def Integer.decode (v : Int) (u : UnitSize) (e : Endianness) (s : Sign) :
    Option (List Nat) :=
  structPack u e s v

/-- The method `Integer.encode` (Integer.py lines 499-598): split `data` into words
of `unitSize` bits, pad the trailing partial word with null bytes (on
the left for big endian, on the right for little endian), unpack each
word with the per-word format and accumulate `word << unitSize * iWord`.
The Python loop variable `i` from `range(start, end, inc)` is used only
to detect the last iteration, which is `iWord = nbWords - 1` for either
endianness, so the loop is modelled directly over `iWord`. -/
def Integer.encode (data : List Nat) (u : UnitSize) (e : Endianness)
    (s : Sign) : Int :=
  let unit := u.value
  let k := unit / 8
  let rest := data.length * 8 % unit
  let nbWords := if rest ≠ 0 then data.length * 8 / unit + 1 else data.length * 8 / unit
  let padding := if rest ≠ 0 then (unit - rest) / 8 else 0
  (List.range nbWords).foldl
    (fun acc iWord =>
      let wordData := (data.drop (iWord * k)).take k
      let wordData :=
        if 0 < padding ∧ iWord = nbWords - 1 then
          match e with
          | .big => List.replicate padding 0 ++ wordData
          | .little => wordData ++ List.replicate padding 0
        else wordData
      acc + structUnpack u e s wordData * (2 : Int) ^ (unit * iWord))
    0

lemma bytesBE_length (k : Nat) : ∀ n, (bytesBE k n).length = k := by
  induction k with
  | zero => intro n; rfl
  | succ k ih => intro n; simp [bytesBE, ih]

lemma bytesToNatBE_append_single (l : List Nat) (b : Nat) :
    bytesToNatBE (l ++ [b]) = bytesToNatBE l * 256 + b := by
  simp [bytesToNatBE, List.foldl_append]

lemma bytesToNatBE_bytesBE (k : Nat) :
    ∀ n, n < 256 ^ k → bytesToNatBE (bytesBE k n) = n := by
  induction k with
  | zero =>
    intro n hn
    interval_cases n
    rfl
  | succ k ih =>
    intro n hn
    have hdiv : n / 256 < 256 ^ k := by
      rw [Nat.div_lt_iff_lt_mul (by norm_num)]
      calc n < 256 ^ (k + 1) := hn
        _ = 256 ^ k * 256 := by rw [pow_succ]
    rw [bytesBE, bytesToNatBE_append_single, ih _ hdiv]
    omega

lemma unitSize_pos (u : UnitSize) : 0 < u.value := by
  cases u <;> simp [UnitSize.value]

lemma unitSize_div8 (u : UnitSize) : u.value / 8 * 8 = u.value := by
  cases u <;> rfl

lemma two_pow_unitSize (u : UnitSize) :
    (2 : Int) ^ u.value = 2 * (2 : Int) ^ (u.value - 1) := by
  have h : u.value - 1 + 1 = u.value := Nat.succ_pred_eq_of_pos (unitSize_pos u)
  calc (2 : Int) ^ u.value = (2 : Int) ^ (u.value - 1 + 1) := by rw [h]
    _ = (2 : Int) ^ (u.value - 1) * 2 := pow_succ 2 (u.value - 1)
    _ = 2 * (2 : Int) ^ (u.value - 1) := by ring

lemma structUnpack_structPack (u : UnitSize) (e : Endianness) (s : Sign)
    (v : Int) (hmin : getMinStorageValue u s ≤ v)
    (hmax : v ≤ getMaxStorageValue u s) :
    ∃ bs, structPack u e s v = some bs ∧ bs.length = u.value / 8 ∧
      structUnpack u e s bs = v := by
  have hB : (0 : Int) < 2 ^ u.value := by positivity
  have hmod_nonneg : 0 ≤ v % (2 : Int) ^ u.value :=
    Int.emod_nonneg v (by positivity)
  have hmod_lt : v % (2 : Int) ^ u.value < 2 ^ u.value :=
    Int.emod_lt_of_pos v hB
  have hcast2 : ((2 ^ u.value : Nat) : Int) = (2 : Int) ^ u.value := by
    push_cast
    ring
  have h3 : (256 : Nat) ^ (u.value / 8) = 2 ^ u.value := by
    cases u <;> norm_num [UnitSize.value]
  have hn_lt : (v % (2 : Int) ^ u.value).toNat < 256 ^ (u.value / 8) := by
    rw [h3]
    rw [← hcast2] at hmod_lt
    omega
  set n := (v % (2 : Int) ^ u.value).toNat with hn_def
  have hguard : ¬ (v < getMinStorageValue u s ∨ getMaxStorageValue u s < v) := by
    push_neg
    exact ⟨hmin, hmax⟩
  have hunfold : structPack u e s v =
      some (byteOrder e (bytesBE (u.value / 8) n)) := by
    simp only [structPack]
    rw [if_neg hguard]
  have hread : bytesToNatBE (bytesBE (u.value / 8) n) = n :=
    bytesToNatBE_bytesBE (u.value / 8) n hn_lt
  have hlen : (byteOrder e (bytesBE (u.value / 8) n)).length = u.value / 8 := by
    cases e <;> simp [byteOrder, bytesBE_length]
  refine ⟨_, hunfold, hlen, ?_⟩
  have hundo : byteOrder e (byteOrder e (bytesBE (u.value / 8) n)) =
      bytesBE (u.value / 8) n := by
    cases e <;> simp [byteOrder, List.reverse_reverse]
  have hcore : structUnpack u e s (byteOrder e (bytesBE (u.value / 8) n)) =
      (match s with
      | Sign.unsigned => (n : Int)
      | Sign.signed => if n < 2 ^ (u.value - 1) then (n : Int)
          else (n : Int) - (2 : Int) ^ u.value) := by
    cases s <;> simp only [structUnpack, hundo, hread]
  rw [hcore]
  have hvn : (n : Int) = v % (2 : Int) ^ u.value :=
    Int.toNat_of_nonneg hmod_nonneg
  cases s with
  | unsigned =>
    simp only [getMinStorageValue] at hmin
    simp only [getMaxStorageValue] at hmax
    have : v % (2 : Int) ^ u.value = v := Int.emod_eq_of_lt hmin (by omega)
    rw [hvn, this]
  | signed =>
    have hhalf : (2 : Int) ^ u.value / 2 = (2 : Int) ^ (u.value - 1) := by
      rw [two_pow_unitSize u]
      omega
    simp only [getMinStorageValue, hhalf] at hmin
    simp only [getMaxStorageValue, hhalf] at hmax
    have hsplit := two_pow_unitSize u
    rcases le_or_lt 0 v with hv | hv
    · have hlt : v < (2 : Int) ^ u.value := by omega
      have hmodv : v % (2 : Int) ^ u.value = v := Int.emod_eq_of_lt hv hlt
      have hn_small : n < 2 ^ (u.value - 1) := by
        have : (n : Int) < (2 : Int) ^ (u.value - 1) := by rw [hvn, hmodv]; omega
        have hcast : ((2 : Nat) ^ (u.value - 1) : Int) = (2 : Int) ^ (u.value - 1) := by
          push_cast
          ring
        omega
      rw [if_pos hn_small, hvn, hmodv]
    · have hmodv : v % (2 : Int) ^ u.value = v + 2 ^ u.value := by
        have h1 : (v + 2 ^ u.value * 1) % (2 : Int) ^ u.value = v % (2 : Int) ^ u.value :=
          Int.add_mul_emod_self_left v ((2 : Int) ^ u.value) 1
        have h2 : (v + 2 ^ u.value) % (2 : Int) ^ u.value = v + 2 ^ u.value :=
          Int.emod_eq_of_lt (by omega) (by omega)

        calc v % (2 : Int) ^ u.value = (v + 2 ^ u.value * 1) % (2 : Int) ^ u.value := h1.symm
          _ = (v + 2 ^ u.value) % (2 : Int) ^ u.value := by ring_nf
          _ = v + 2 ^ u.value := h2
      have hn_big : ¬ n < 2 ^ (u.value - 1) := by
        have : (2 : Int) ^ (u.value - 1) ≤ (n : Int) := by rw [hvn, hmodv]; omega
        have hcast : ((2 : Nat) ^ (u.value - 1) : Int) = (2 : Int) ^ (u.value - 1) := by
          push_cast
          ring
        omega
      rw [if_neg hn_big]
      rw [hvn, hmodv]
      ring

lemma Integer.encode_single (u : UnitSize) (e : Endianness) (s : Sign)
    (bs : List Nat) (h : bs.length = u.value / 8) :
    Integer.encode bs u e s = structUnpack u e s bs := by
  have hpos : 0 < u.value := unitSize_pos u
  have hlen8 : bs.length * 8 = u.value := by rw [h, unitSize_div8]
  have hrange : List.range 1 = [0] := rfl
  have htake : List.take (u.value / 8) bs = bs := by
    rw [← h, List.take_length]
  simp [Integer.encode, hlen8, Nat.mod_self, Nat.div_self hpos, hrange, htake]

/-! ## Paths (GenericPath / ParsingPath / SpecializingPath), abstracted to
the operations the Alt and leaf code uses: an assignment store from
variable id to bit string.  `assignData`/`addResult` both record a value
for a variable (in the source `addResult` additionally triggers pending
relation callbacks, which are outside the claims treated here);
`duplicate`/`clone` copy the path. -/

/-- A parsing/specializing path: ordered assignments of bit strings to
variable ids; the most recent assignment of a variable wins. -/
structure GenericPath where
  assignments : List (Nat × List Bool)
deriving DecidableEq

/-- The read `path.getData(var)`: the current data assigned to a variable (the
source raises when the variable is unassigned; unassigned variables do
not occur in the statements below, and read back as `[]`). -/
def GenericPath.getData (p : GenericPath) (v : Nat) : List Bool :=
  match p.assignments.find? (fun a => a.1 == v) with
  | some a => a.2
  | none => []

/-- The write `path.assignData(data, variable)`. -/
def GenericPath.assignData (p : GenericPath) (data : List Bool) (v : Nat) :
    GenericPath :=
  ⟨(v, data) :: p.assignments⟩

/-- The write `path.addResult(variable, value)`. -/
def GenericPath.addResult (p : GenericPath) (v : Nat) (data : List Bool) :
    GenericPath :=
  ⟨(v, data) :: p.assignments⟩

/-- The copy `path.duplicate()` / `path.clone()`: a copy (paths are immutable in
this embedding). -/
def GenericPath.duplicate (p : GenericPath) : GenericPath := p

lemma getData_addResult_self (p : GenericPath) (v : Nat) (d : List Bool) :
    (p.addResult v d).getData v = d := by
  simp [GenericPath.addResult, GenericPath.getData, List.find?]

lemma getData_addResult_other (p : GenericPath) (v w : Nat) (d : List Bool)
    (h : w ≠ v) : (p.addResult v d).getData w = p.getData w := by
  simp only [GenericPath.addResult, GenericPath.getData, List.find?]
  have : (v == w) = false := by simpa using fun hc => h hc.symm
  simp [this]

/-! ## Alt node (src/netzob/Model/Vocabulary/Domain/Variables/Nodes/Alt.py) -/

/-- An `Alt` variable: its stable id, the ordered child variable ids,
and the optional callback (`callback(path, children)` returns a child
index).  The recursive calls `child.parse` / `child.specialize` are
abstracted as the function arguments `childParse` / `childSpecialize`
below. -/
structure AltVar where
  id : Nat
  children : List Nat
  callback : Option (GenericPath → List Nat → Int)

/-- The method `Alt.parse` (Alt.py lines 143-177): read the data to parse from the
path, give every child a duplicated path carrying that data, parse each
child in declaration order, and for every successful child path record
the child's parsed data as the Alt's result and yield it.  The stored
`callback` is never consulted here. -/
def Alt.parse (alt : AltVar) (childParse : Nat → GenericPath → List GenericPath)
    (parsingPath : GenericPath) : List GenericPath :=
  let dataToParse := parsingPath.getData alt.id
  alt.children.flatMap (fun child =>
    let newParsingPath := (parsingPath.duplicate).assignData dataToParse child
    (childParse child newParsingPath).map
      (fun childParsingPath =>
        childParsingPath.addResult alt.id (childParsingPath.getData child)))

/-- Python list indexing `children[i]` for `i : Int`: nonnegative
indices in range, negative indices counted from the end, `IndexError`
(modelled `none`) otherwise. -/
def pythonListIndex (n : Nat) (i : Int) : Option Nat :=
  if 0 ≤ i ∧ i < (n : Int) then some i.toNat
  else if -(n : Int) ≤ i ∧ i < 0 then some (((n : Int) + i).toNat)
  else none

/-- The child-selection part of `Alt.specialize` (Alt.py lines 191-215):
when a fuzz configuration covers the Alt, the mutator-generated integer
is used and must be in `[0, len(children))`, else `ValueError` (`none`);
otherwise, when the callback is set, its returned index selects via
Python list indexing; otherwise `random.choice` (whose drawn index is
abstracted as `rnd`). -/
def Alt.specializeSelect (n : Nat) (fuzzIdx : Option Int) (cbk : Option Int)
    (rnd : Nat) : Option Nat :=
  match fuzzIdx with
  | some generated_value =>
    if 0 ≤ generated_value ∧ generated_value < (n : Int) then
      some generated_value.toNat
    else none
  | none =>
    match cbk with
    | some i_child => pythonListIndex n i_child
    | none => some rnd

/-- The method `Alt.specialize` (Alt.py lines 179-239): select one child (see
`Alt.specializeSelect`), specialize it on a duplicated path, record the
child's produced bits as the Alt's bits on every resulting path, and
shuffle the resulting path list.  A selection error (`ValueError` on an
out-of-range fuzz index, or `IndexError` from the callback index)
aborts the call (`none`).  `fuzzIdx` is `mutator.generate()` when a
fuzz configuration covers this Alt; `rnd` abstracts `random.choice`;
`shuffle` abstracts `random.shuffle`. -/
def Alt.specialize (alt : AltVar)
    (childSpecialize : Nat → GenericPath → List GenericPath)
    (fuzzIdx : Option Int) (rnd : Nat)
    (shuffle : List GenericPath → List GenericPath)
    (specializingPath : GenericPath) : Option (List GenericPath) :=
  let cbk := alt.callback.map (fun f => f specializingPath alt.children)
  match Alt.specializeSelect alt.children.length fuzzIdx cbk rnd with
  | none => none
  | some idx =>
    let child := alt.children.getD idx 0
    let newSpecializingPath := specializingPath.duplicate
    some (shuffle ((childSpecialize child newSpecializingPath).map
      (fun childSpecializingPath =>
        childSpecializingPath.addResult alt.id
          (childSpecializingPath.getData child))))

/-- The position interval installed by `AlternativeMutator.__init__`
(AlternativeMutator.py lines 115-117):
`uint8le(interval=(0, len(domain.children)))`. -/
def AlternativeMutator.positionInterval (n : Nat) : Int × Int := (0, (n : Int))

/-- The method `Integer.generate` over an interval (Integer.py lines 630-661) draws
`random.randint(min(self.size), max(self.size))`, an inclusive range:
the values a position mutator over interval `(lo, hi)` can produce. -/
def Integer.generateCanProduce (lo hi v : Int) : Prop :=
  min lo hi ≤ v ∧ v ≤ max lo hi

/-! ## Leaf variables
(src/netzob/Model/Vocabulary/Domain/Variables/Leafs/AbstractVariableLeaf.py) -/

/-- The variable scope (`Scope.CONSTANT/SESSION/MESSAGE/NONE`). -/
inductive Scope where
  | CONSTANT
  | SESSION
  | MESSAGE
  | NONE
deriving DecidableEq

/-- The abstract method a `Data` leaf parse is dispatched to. -/
inductive LeafMethod where
  | valueCMP
  | learn
  | domainCMP
  | noPath
deriving DecidableEq

/-- The dispatch of `AbstractVariableLeaf.parse` (AbstractVariableLeaf.py
lines 89-111) on the scope and on `isDefined(parsingPath)`:
defined CONSTANT/SESSION go to `valueCMP`, defined MESSAGE goes to
`learn`, NONE goes to `domainCMP`, undefined CONSTANT yields no path
(`[]`), undefined MESSAGE/SESSION go to `learn`. -/
def AbstractVariableLeaf.parseDispatch (scope : Scope) (defined : Bool) :
    LeafMethod :=
  if defined then
    match scope with
    | .CONSTANT => .valueCMP
    | .SESSION => .valueCMP
    | .MESSAGE => .learn
    | .NONE => .domainCMP
  else
    match scope with
    | .CONSTANT => .noPath
    | .MESSAGE => .learn
    | .SESSION => .learn
    | .NONE => .domainCMP

/-- The state a leaf parse works on: the bits remaining at the cursor
and the memory entry for this variable (`none` when the variable is not
defined). -/
structure LeafState where
  remaining : List Bool
  memory : Option (List Bool)
deriving DecidableEq

/-- The data type carried by a `Data` leaf, reduced to what the leaf
parse methods use: the bit-length bounds and the `canParse` predicate. -/
structure DataTypeSpec where
  minL : Nat
  maxL : Nat
  accept : List Bool → Bool

/-- Modelled from the spec: the candidate lengths `domainCMP` iterates,
`[min, min(max, remaining)]` (spec section 4.2); the iteration order is
taken from the code's observable behaviour, the `FieldParser.parse`
doctest (FieldParser.py lines 58-71), which yields the LONGEST accepted
slice first ('toto', 'tot', 'to', 't'), so the candidates are listed in
descending order. -/
def candidateLengths (minL maxL remaining : Nat) : List Nat :=
  (List.range' minL (min maxL remaining + 1 - minL)).reverse

/-- Modelled from the spec: `Data.domainCMP` (the `Data` class is not in
the source tree; spec section 4.2: iterate candidate lengths, test
`type.canParse(slice)` on the next bits, yield one path per accepted
length, memory untouched). -/
def Data.domainCMP (t : DataTypeSpec) (st : LeafState) :
    List (List Bool × LeafState) :=
  (candidateLengths t.minL t.maxL st.remaining.length).filterMap
    (fun len =>
      let content := st.remaining.take len
      if t.accept content then
        some (content, { remaining := st.remaining.drop len, memory := st.memory })
      else none)

/-- Modelled from the spec: `Data.valueCMP` (spec section 4.2: the next
bits must equal the memorized value; advance the cursor; assign). -/
def Data.valueCMP (st : LeafState) : List (List Bool × LeafState) :=
  match st.memory with
  | none => []
  | some v =>
    if v.length ≤ st.remaining.length ∧ st.remaining.take v.length = v then
      [(v, { remaining := st.remaining.drop v.length, memory := st.memory })]
    else []

/-- Modelled from the spec: `Data.learn` (spec section 4.2: as
`domainCMP` but additionally record the accepted slice in memory). -/
def Data.learn (t : DataTypeSpec) (st : LeafState) :
    List (List Bool × LeafState) :=
  (candidateLengths t.minL t.maxL st.remaining.length).filterMap
    (fun len =>
      let content := st.remaining.take len
      if t.accept content then
        some (content, { remaining := st.remaining.drop len, memory := some content })
      else none)

/-- The method `AbstractVariableLeaf.parse` for a `Data` leaf: the dispatch of
AbstractVariableLeaf.py lines 89-111 combined with the spec-modelled
leaf methods; each result is the bits assigned to the leaf together
with the updated state. -/
def AbstractVariableLeaf.parse (scope : Scope) (t : DataTypeSpec)
    (st : LeafState) : List (List Bool × LeafState) :=
  match AbstractVariableLeaf.parseDispatch scope st.memory.isSome with
  | .valueCMP => Data.valueCMP st
  | .learn => Data.learn t st
  | .domainCMP => Data.domainCMP t st
  | .noPath => []

/-- The loop of `fuzz_generate` in `AbstractVariableLeaf.specialize`
(AbstractVariableLeaf.py lines 152-171): up to `count` iterations; each
iteration calls `mutator.generate()` — abstracted as `gen i`, where
`none` models a raised `MaxFuzzingException` — and on success yields
the generated value; on `MaxFuzzingException` the loop breaks.  Returns
the yielded values in order. -/
def fuzzGenerateLoop (gen : Nat → Option (List Bool)) :
    Nat → Nat → List (List Bool)
  | _, 0 => []
  | i, n + 1 =>
    match gen i with
    | none => []
    | some generated_value => generated_value :: fuzzGenerateLoop gen (i + 1) n

/-- The generator `fuzz_generate` (AbstractVariableLeaf.py lines 152-171): each yielded
value is associated to the leaf variable `selfId` on a cloned path. -/
def AbstractVariableLeaf.fuzz_generate (selfId count : Nat)
    (gen : Nat → Option (List Bool)) (parsingPath : GenericPath) :
    List GenericPath :=
  (fuzzGenerateLoop gen 0 count).map
    (fun value => (parsingPath.duplicate).addResult selfId value)

/-! ## FlowParser (src/netzob/Model/Vocabulary/Domain/Parser/FlowParser.py) -/

/-- The total bit length of one symbol's parse result (the list of
slices assigned to its leaf fields):
`sum([len(value) for value in parse_result])`. -/
def parseResultLen (parse_result : List (List Bool)) : Nat :=
  (parse_result.map List.length).sum

/-- The total bit length of a flow segmentation (a list of
`(symbol, parse_result)` pairs). -/
def flowLen (seg : List (Nat × List (List Bool))) : Nat :=
  (seg.map (fun p => parseResultLen p.2)).sum

/-- The method `FlowParser._parseFlow_internal` (FlowParser.py lines 196-242).
`mparse bits symbol` abstracts
`MessageParser.parseBitarray(bits, symbol.getLeafFields(), must_consume_everything=False)`
(the `MessageParser` class is not in the source tree; per spec sections
3 and 4.6 each of its results assigns slices whose concatenation is the
consumed prefix of `bits`).  For each candidate symbol in order and
each of its parse results: if bits remain after the consumed prefix,
recurse on them with the same symbol list and prepend the pair,
otherwise yield the single pair.  `InvalidParsingPathException` inside
a symbol or a recursion is caught and becomes an empty contribution.
The Python recursion is modelled with a fuel argument; since the
source recurses only on a strictly non-empty remainder, a fuel of
`bits.length` suffices whenever every parse result consumes at least
one bit. -/
def FlowParser.parseFlowInternal
    (mparse : List Bool → Nat → List (List (List Bool))) :
    Nat → List Bool → List Nat → List (List (Nat × List (List Bool)))
  | 0, _, _ => []
  | fuel + 1, bits, symbols =>
    if bits.length = 0 then []
    else
      symbols.flatMap (fun symbol =>
        (mparse bits symbol).flatMap (fun parse_result =>
          let remainings := bits.drop (parseResultLen parse_result)
          if 0 < remainings.length then
            (FlowParser.parseFlowInternal mparse fuel remainings symbols).map
              (fun child => (symbol, parse_result) :: child)
          else [[(symbol, parse_result)]]))

/-- The method `FlowParser.parseFlow` (FlowParser.py lines 170-194): return the
first segmentation produced by `_parseFlow_internal`, or raise
`InvalidParsingPathException` (modelled `none`) when it produces
none. -/
def FlowParser.parseFlow (mparse : List Bool → Nat → List (List (List Bool)))
    (bits : List Bool) (symbols : List Nat) :
    Option (List (Nat × List (List Bool))) :=
  (FlowParser.parseFlowInternal mparse bits.length bits symbols).head?

end Netzob

namespace Netzob

/-! ## Claim C3 -/

/-- Claim C3 as stated is false: `BitArray('11110101')` (a fixed-value
BitArray with no explicit bounds) accepts the 8-bit data `00000000`,
which differs from the fixed value, because a non-matching fixed value
falls through to the bit-length bounds check instead of rejecting. -/
theorem C3_counterexample :
    ¬ (BitArray.canParse bitArrayFixedExample (List.replicate 8 false) = true ↔
        bitArrayFixedExample.value = some (List.replicate 8 false)) := by
  decide

/-- Claim C3 (amended): `BitArray.canParse` returns `true` iff the data is
non-empty and either equals the fixed value (when one is set) or has a
bit length within the declared `(min, max)` bounds; a set fixed value is
an additional way to be accepted, not an exclusive test, and empty data
is always rejected. -/
theorem C3_canParse_characterization (t : BitArray) (data : List Bool) :
    BitArray.canParse t data = true ↔
      (data ≠ [] ∧
        (t.value = some data ∨
          ((∀ m, t.nbMinBits = some m → m ≤ data.length) ∧
           (∀ M, t.nbMaxBits = some M → data.length ≤ M)))) := by
  rcases t with ⟨v, mn, mx⟩
  simp only [BitArray.canParse]
  split_ifs with h1 h2 h3 h4
  · simp [List.length_eq_zero.mp h1]
  · have hne : data ≠ [] := fun h => h1 (by simp [h])
    simp [h2, hne]
  · simp only [false_iff, not_and, not_or]
    refine fun _ => ⟨h2, fun ha _ => ?_⟩
    have := (sizeMinRejects_eq_false mn data.length).mpr ha
    simp [this] at h3
  · simp only [false_iff, not_and, not_or]
    refine fun _ => ⟨h2, fun _ hb => ?_⟩
    have := (sizeMaxRejects_eq_false mx data.length).mpr hb
    simp [this] at h4
  · have hne : data ≠ [] := fun h => h1 (by simp [h])
    have m1 := (sizeMinRejects_eq_false mn data.length).mp (by simpa using h3)
    have m2 := (sizeMaxRejects_eq_false mx data.length).mp (by simpa using h4)
    simp only [true_iff]
    exact ⟨hne, Or.inr ⟨m1, m2⟩⟩

/-! ## Claim C4 -/

lemma candidateLengths_pairwise_gt (a b r : Nat) :
    (candidateLengths a b r).Pairwise (· > ·) := by
  unfold candidateLengths
  rw [List.pairwise_reverse]
  exact List.pairwise_lt_range' a (min b r + 1 - a)

lemma candidateLengths_le (a b r : Nat) : ∀ len ∈ candidateLengths a b r, len ≤ r := by
  intro len h
  unfold candidateLengths at h
  rw [List.mem_reverse] at h
  have := List.mem_range'_1.mp h
  omega

lemma domainCMP_map_length (t : DataTypeSpec) (st : LeafState) :
    (Data.domainCMP t st).map (fun q => q.1.length) =
      (candidateLengths t.minL t.maxL st.remaining.length).filter
        (fun len => t.accept (st.remaining.take len)) := by
  have main : ∀ L : List Nat, (∀ len ∈ L, len ≤ st.remaining.length) →
      (L.filterMap (fun len =>
        if t.accept (st.remaining.take len) then
          some (st.remaining.take len,
            ({ remaining := st.remaining.drop len, memory := st.memory } : LeafState))
        else none)).map (fun q => q.1.length) =
      L.filter (fun len => t.accept (st.remaining.take len)) := by
    intro L
    induction L with
    | nil => intro _; rfl
    | cons x xs ih =>
      intro h
      have hx_le : x ≤ st.remaining.length := h x (List.mem_cons_self x xs)
      have hih := ih (fun l hl => h l (List.mem_cons_of_mem x hl))
      by_cases hx : t.accept (st.remaining.take x) = true
      · simp only [List.filterMap_cons, List.filter_cons, hx, if_true,
          List.map_cons, hih, List.length_take]
        rw [Nat.min_eq_left hx_le]
      · have hx0 : t.accept (st.remaining.take x) = false := by simpa using hx
        simp only [List.filterMap_cons, List.filter_cons, hx0,
          Bool.false_eq_true, if_false, hih]
  exact main _ (candidateLengths_le t.minL t.maxL st.remaining.length)

/-- The content `"toto"` parsed in the `FieldParser.parse` doctest
(FieldParser.py lines 58-71), encoded one entry per character with
`'t' = true` and `'o' = false`. -/
def fieldParserDoctestContent : List Bool := [true, false, true, false]

/-- The slices yielded by the doctest, in its recorded order:
`toto`, `tot`, `to`, `t` (same character encoding). -/
def fieldParserDoctestYields : List (List Bool) :=
  [[true, false, true, false], [true, false, true], [true, false], [true]]

/-- The `String(nbChars=(1,10))` type of the doctest, at character
granularity: any slice of 1 to 10 characters parses. -/
def stringType1to10 : DataTypeSpec := ⟨1, 10, fun _ => true⟩

/-- Claim C4 as stated is false on the code's recorded behaviour: in
the `FieldParser.parse` doctest, parsing `toto` with
`String(nbChars=(1,10))` yields `toto, tot, to, t` — the FIRST yielded
path consumes the LONGEST accepted slice (4 characters), although the
1-character slice is also accepted, contradicting shortest-first. -/
theorem C4_counterexample :
    (Data.domainCMP stringType1to10 ⟨fieldParserDoctestContent, none⟩).map
        (fun q => q.1) = fieldParserDoctestYields ∧
    (Data.domainCMP stringType1to10 ⟨fieldParserDoctestContent, none⟩).head?.map
        (fun q => q.1.length) = some 4 ∧
    1 ∈ (Data.domainCMP stringType1to10 ⟨fieldParserDoctestContent, none⟩).map
        (fun q => q.1.length) ∧
    ¬ ((Data.domainCMP stringType1to10 ⟨fieldParserDoctestContent, none⟩).head?.map
        (fun q => q.1.length) = some 1) := by
  decide

/-- Claim C4 (amended): for a Data leaf with a length range, `domainCMP`
yields the accepted candidate lengths in strictly DESCENDING order —
the path consuming the longest accepted slice is yielded first — as
recorded by the `FieldParser.parse` doctest on `toto`. -/
theorem C4_longest_first (t : DataTypeSpec) (st : LeafState) :
    ((Data.domainCMP t st).map (fun q => q.1.length)).Pairwise (· > ·) ∧
    (Data.domainCMP stringType1to10 ⟨fieldParserDoctestContent, none⟩).map
        (fun q => q.1) = fieldParserDoctestYields := by
  constructor
  · rw [domainCMP_map_length]
    exact (candidateLengths_pairwise_gt t.minL t.maxL
      st.remaining.length).sublist (List.filter_sublist _)
  · decide

/-! ## Claim C10 -/

/-- Claim C10: in fuzzing mode, `Alt.specialize` selects the `i`-th
child exactly when the mutator-generated integer `i` is in
`[0, len(children))` and raises `ValueError` (aborting the call)
otherwise; and the default `AlternativeMutator` position mutator draws
from the inclusive interval `(0, len(children))` — whose upper endpoint
`len(children)` is producible and is out of range. -/
theorem C10_alt_fuzz_selection (n : Nat) (g : Int) (cbk : Option Int)
    (rnd : Nat) :
    (0 ≤ g → g < (n : Int) →
      Alt.specializeSelect n (some g) cbk rnd = some g.toNat) ∧
    (g < 0 ∨ (n : Int) ≤ g →
      Alt.specializeSelect n (some g) cbk rnd = none) ∧
    AlternativeMutator.positionInterval n = (0, (n : Int)) ∧
    Integer.generateCanProduce 0 (n : Int) (n : Int) ∧
    Alt.specializeSelect n (some ((n : Nat) : Int)) cbk rnd = none := by
  refine ⟨?_, ?_, rfl, ?_, ?_⟩
  · intro h1 h2
    simp [Alt.specializeSelect, h1, h2]
  · intro h
    have : ¬ (0 ≤ g ∧ g < (n : Int)) := by omega
    simp [Alt.specializeSelect, this]
  · simp only [Integer.generateCanProduce]
    omega
  · have : ¬ ((0 : Int) ≤ (n : Int) ∧ (n : Int) < (n : Int)) := by omega
    simp [Alt.specializeSelect, this]

/-- Witness for C10 at `n = 2`, `g = 2` (the inclusive upper endpoint of
the default position interval): the fuzz index 2 is producible yet
out of range, so `Alt.specialize` raises `ValueError`. -/
theorem C10_alt_fuzz_selection_witness :
    Integer.generateCanProduce 0 (2 : Int) (2 : Int) ∧
    Alt.specializeSelect 2 (some ((2 : Nat) : Int)) none 0 = none :=
  ⟨(C10_alt_fuzz_selection 2 2 none 0).2.2.2.1,
    (C10_alt_fuzz_selection 2 2 none 0).2.2.2.2⟩

/-! ## Claim C5 -/

lemma pythonListIndex_lt (n : Nat) (i : Int) (idx : Nat)
    (h : pythonListIndex n i = some idx) : idx < n := by
  unfold pythonListIndex at h
  split_ifs at h with h1 h2
  · injection h with h
    omega
  · injection h with h
    omega

lemma specializeSelect_lt (n : Nat) (fz cb : Option Int) (rnd idx : Nat)
    (hrnd : rnd < n) (h : Alt.specializeSelect n fz cb rnd = some idx) :
    idx < n := by
  cases fz with
  | some g =>
    simp only [Alt.specializeSelect] at h
    split_ifs at h with h1
    injection h with h
    omega
  | none =>
    cases cb with
    | some i =>
      simp only [Alt.specializeSelect] at h
      exact pythonListIndex_lt n i idx h
    | none =>
      simp only [Alt.specializeSelect] at h
      injection h with h
      omega

lemma getD_mem_of_lt (l : List Nat) (idx : Nat) (h : idx < l.length) :
    l.getD idx 0 ∈ l := by
  rw [List.getD_eq_getElem l 0 h]
  exact List.getElem_mem h

/-- Claim C5: `Alt.specialize` selects the child with the priority
fuzz-mutator index (when a fuzz configuration covers the Alt), else
callback, else uniformly random choice; and whenever the selection
returned index `idx` and specialization succeeds, every resulting path
records for the Alt variable exactly the bits produced by that selected
child `children[idx]`. -/
theorem C5_alt_specialize (alt : AltVar)
    (childSpecialize : Nat → GenericPath → List GenericPath)
    (fuzzIdx : Option Int) (rnd : Nat)
    (shuffle : List GenericPath → List GenericPath) (path : GenericPath)
    (hshuffle : ∀ l, List.Perm (shuffle l) l)
    (hrnd : rnd < alt.children.length)
    (hid : alt.id ∉ alt.children) :
    (∀ g : Int, fuzzIdx = some g → 0 ≤ g → g < (alt.children.length : Int) →
      Alt.specializeSelect alt.children.length fuzzIdx
        (alt.callback.map (fun f => f path alt.children)) rnd = some g.toNat) ∧
    (∀ f, fuzzIdx = none → alt.callback = some f →
      Alt.specializeSelect alt.children.length fuzzIdx
        (alt.callback.map (fun f => f path alt.children)) rnd =
        pythonListIndex alt.children.length (f path alt.children)) ∧
    (fuzzIdx = none → alt.callback = none →
      Alt.specializeSelect alt.children.length fuzzIdx
        (alt.callback.map (fun f => f path alt.children)) rnd = some rnd) ∧
    (∀ idx out,
      Alt.specializeSelect alt.children.length fuzzIdx
        (alt.callback.map (fun f => f path alt.children)) rnd = some idx →
      Alt.specialize alt childSpecialize fuzzIdx rnd shuffle path = some out →
      ∀ q ∈ out,
        q.getData alt.id = q.getData (alt.children.getD idx 0) ∧
        alt.children.getD idx 0 ∈ alt.children) := by
  refine ⟨?_, ?_, ?_, ?_⟩
  · intro g hg h0 h1
    subst hg
    simp [Alt.specializeSelect, h0, h1]
  · intro f h0 hf
    subst h0
    rw [hf]
    simp [Alt.specializeSelect, Option.map]
  · intro h0 hf
    subst h0
    rw [hf]
    simp [Alt.specializeSelect, Option.map]
  · intro idx out hsel hout q hq
    simp only [Alt.specialize] at hout
    rw [hsel] at hout
    simp only [Option.some.injEq] at hout
    have hidx : idx < alt.children.length :=
      specializeSelect_lt _ _ _ _ _ hrnd hsel
    have hcm : alt.children.getD idx 0 ∈ alt.children :=
      getD_mem_of_lt _ _ hidx
    have hqm : q ∈ (childSpecialize (alt.children.getD idx 0)
        (path.duplicate)).map
        (fun q0 => q0.addResult alt.id
          (q0.getData (alt.children.getD idx 0))) := by
      rw [← hout] at hq
      exact (hshuffle _).mem_iff.mp hq
    obtain ⟨q0, _, rfl⟩ := List.mem_map.mp hqm
    have hcne : alt.children.getD idx 0 ≠ alt.id := fun hh => hid (hh ▸ hcm)
    rw [getData_addResult_self, getData_addResult_other _ _ _ _ hcne]
    exact ⟨rfl, hcm⟩

/-- The Alt used to witness C5: id 9, children 1 and 2, no callback. -/
def altWitnessVar : AltVar := ⟨9, [1, 2], none⟩

/-- Child specialization for the C5 witness: child `c` emits the single
bit `c == 1`. -/
def altSpecChildEx : Nat → GenericPath → List GenericPath :=
  fun c p => [p.addResult c [c == 1]]

/-- The empty specializing path. -/
def emptyPath : GenericPath := ⟨[]⟩

/-- Witness for C5: the theorem applied to a concrete Alt with two
children, random choice index 0, identity shuffle. -/
theorem C5_alt_specialize_witness :
    (∀ g : Int, (none : Option Int) = some g → 0 ≤ g →
      g < (altWitnessVar.children.length : Int) →
      Alt.specializeSelect altWitnessVar.children.length none
        (altWitnessVar.callback.map (fun f => f emptyPath altWitnessVar.children)) 0 =
        some g.toNat) ∧
    (∀ f, (none : Option Int) = none → altWitnessVar.callback = some f →
      Alt.specializeSelect altWitnessVar.children.length none
        (altWitnessVar.callback.map (fun f => f emptyPath altWitnessVar.children)) 0 =
        pythonListIndex altWitnessVar.children.length (f emptyPath altWitnessVar.children)) ∧
    ((none : Option Int) = none → altWitnessVar.callback = none →
      Alt.specializeSelect altWitnessVar.children.length none
        (altWitnessVar.callback.map (fun f => f emptyPath altWitnessVar.children)) 0 =
        some 0) ∧
    (∀ idx out,
      Alt.specializeSelect altWitnessVar.children.length none
        (altWitnessVar.callback.map (fun f => f emptyPath altWitnessVar.children)) 0 =
        some idx →
      Alt.specialize altWitnessVar altSpecChildEx none 0 id emptyPath = some out →
      ∀ q ∈ out,
        q.getData altWitnessVar.id = q.getData (altWitnessVar.children.getD idx 0) ∧
        altWitnessVar.children.getD idx 0 ∈ altWitnessVar.children) :=
  C5_alt_specialize altWitnessVar altSpecChildEx none 0 id emptyPath
    (fun l => List.Perm.refl l) (by decide) (by decide)

/-! ## Claim C7 -/

lemma fuzzGenerateLoop_eq (gen : Nat → Option (List Bool)) (i : Nat)
    (hnone : gen i = none) (hsome : ∀ j, j < i → (gen j).isSome) :
    ∀ n s, s ≤ i → i < s + n →
      fuzzGenerateLoop gen s n = (List.range' s (i - s)).filterMap gen := by
  intro n
  induction n with
  | zero =>
    intro s h1 h2
    omega
  | succ n ih =>
    intro s h1 h2
    rcases eq_or_lt_of_le h1 with rfl | hlt
    · simp [fuzzGenerateLoop, hnone]
    · obtain ⟨v, hv⟩ := Option.isSome_iff_exists.mp (hsome s hlt)
      have hr : List.range' s (i - s) = s :: List.range' (s + 1) (i - s - 1) := by
        have hsub : i - s = (i - s - 1) + 1 := by omega
        conv_lhs => rw [hsub]
        rw [List.range'_succ]
      rw [hr]
      simp only [fuzzGenerateLoop, hv, List.filterMap_cons]
      rw [ih (s + 1) (by omega) (by omega)]
      have : i - (s + 1) = i - s - 1 := by omega
      rw [this]

/-- Claim C7: when the mutator raises `MaxFuzzingException` at
iteration `i` of the `fuzz_generate` loop (GENERATE/FIXED mode), the
specialization iterator stops cleanly: it returns exactly the paths for
the values generated before the exception, no error propagates (the
result is a plain list) and no further paths are produced. -/
theorem C7_fuzz_generate_stops (selfId count : Nat)
    (gen : Nat → Option (List Bool)) (path : GenericPath) (i : Nat)
    (hi : i < count) (hnone : gen i = none)
    (hsome : ∀ j, j < i → (gen j).isSome) :
    AbstractVariableLeaf.fuzz_generate selfId count gen path =
      ((List.range i).filterMap gen).map
        (fun value => (path.duplicate).addResult selfId value) := by
  unfold AbstractVariableLeaf.fuzz_generate
  rw [fuzzGenerateLoop_eq gen i hnone hsome count 0 (by omega) (by omega)]
  rw [List.range_eq_range']
  norm_num

/-- Witness for C7: a mutator that produces two values then raises, in
a loop of five iterations, yields exactly the first two paths. -/
theorem C7_fuzz_generate_stops_witness :
    AbstractVariableLeaf.fuzz_generate 7 5
      (fun j => if j < 2 then some [true] else none) emptyPath =
      ((List.range 2).filterMap (fun j => if j < 2 then some [true] else none)).map
        (fun value => (emptyPath.duplicate).addResult 7 value) :=
  C7_fuzz_generate_stops 7 5 (fun j => if j < 2 then some [true] else none)
    emptyPath 2 (by decide) (by decide) (by decide)

/-! ## Claim C8 -/

/-- Claim C8: every segmentation yielded by flow parsing is complete —
the bit lengths of the slices over all `(symbol, parse result)` pairs
sum to the length of the input — provided every `parseBitarray` result
consumes at most the input (it assigns a prefix); and `parseFlow`
returns a segmentation only of this complete kind, so when no complete
segmentation exists it raises `InvalidParsingPathException` (`none`). -/
theorem C8_parseFlow_complete
    (mparse : List Bool → Nat → List (List (List Bool)))
    (H : ∀ b s r, r ∈ mparse b s → parseResultLen r ≤ b.length) :
    (∀ fuel bits symbols seg,
      seg ∈ FlowParser.parseFlowInternal mparse fuel bits symbols →
      flowLen seg = bits.length) ∧
    (∀ bits symbols seg, FlowParser.parseFlow mparse bits symbols = some seg →
      flowLen seg = bits.length) := by
  have hall : ∀ fuel bits symbols seg,
      seg ∈ FlowParser.parseFlowInternal mparse fuel bits symbols →
      flowLen seg = bits.length := by
    intro fuel
    induction fuel with
    | zero =>
      intro bits symbols seg hseg
      simp [FlowParser.parseFlowInternal] at hseg
    | succ fuel ih =>
      intro bits symbols seg hseg
      rw [FlowParser.parseFlowInternal] at hseg
      by_cases hz : bits.length = 0
      · simp [hz] at hseg
      · rw [if_neg hz] at hseg
        obtain ⟨symbol, _, hseg⟩ := List.mem_flatMap.mp hseg
        obtain ⟨parse_result, hpr, hseg⟩ := List.mem_flatMap.mp hseg
        have hk : parseResultLen parse_result ≤ bits.length := H _ _ _ hpr
        have hdrop : (bits.drop (parseResultLen parse_result)).length =
            bits.length - parseResultLen parse_result := List.length_drop _ _
        by_cases hrem : 0 < (bits.drop (parseResultLen parse_result)).length
        · rw [if_pos hrem] at hseg
          obtain ⟨child, hchild, rfl⟩ := List.mem_map.mp hseg
          have hchildlen := ih _ _ _ hchild
          simp only [flowLen, List.map_cons, List.sum_cons] at *
          omega
        · rw [if_neg hrem] at hseg
          simp only [List.mem_singleton] at hseg
          subst hseg
          simp only [flowLen, List.map_cons, List.sum_cons, List.map_nil,
            List.sum_nil]
          omega
  exact ⟨hall, fun bits symbols seg h =>
    hall bits.length bits symbols seg (List.mem_of_mem_head? h)⟩

/-- Witness for C8: a single symbol whose parser consumes the whole
input; the one yielded segmentation covers the two input bits. -/
theorem C8_parseFlow_complete_witness :
    flowLen [(0, [[true, true]])] = 2 :=
  (C8_parseFlow_complete (fun b _ => [[b]])
    (by
      intro b s r hr
      simp only [List.mem_singleton] at hr
      subst hr
      simp [parseResultLen])).2
    [true, true] [0] [(0, [[true, true]])] rfl

/-! ## Claim C6 -/

/-- Claim C6 as stated is false at a concrete input: with the default
`max_depth` D = 20 and the per-Alt counter at 19, the next call to
`generate` increments the counter to 20 and raises, although the counter
20 does not exceed D = 20 (the code raises as soon as the counter
reaches `max_depth`, not only once it exceeds it; `generate` can
therefore succeed at most 19 = D - 1 times, not D times). -/
theorem C6_counterexample :
    (AlternativeMutator.generate AlternativeMutator.DEFAULT_MAX_DEPTH 19 0).1 = none ∧
    (AlternativeMutator.generate AlternativeMutator.DEFAULT_MAX_DEPTH 19 0).2 = 20 ∧
    ¬ (20 > AlternativeMutator.DEFAULT_MAX_DEPTH) ∧
    AlternativeMutator.run AlternativeMutator.DEFAULT_MAX_DEPTH 0 20 = 19 := by
  decide

/-! ## Claim C9 -/

/-- Claim C9: for every integer within the storage range of the chosen
unitSize and sign, and for both endiannesses,
`Integer.encode(Integer.decode(v)) = v`; the byte string produced by
`decode` has exactly `unitSize / 8` bytes, so the lengths align and
`encode` runs its single-word path. -/
theorem C9_integer_roundtrip (u : UnitSize) (e : Endianness) (s : Sign)
    (v : Int) (hmin : getMinStorageValue u s ≤ v)
    (hmax : v ≤ getMaxStorageValue u s) :
    ∃ bs, Integer.decode v u e s = some bs ∧ bs.length = u.value / 8 ∧
      Integer.encode bs u e s = v := by
  obtain ⟨bs, hpack, hlen, hunp⟩ := structUnpack_structPack u e s v hmin hmax
  exact ⟨bs, hpack, hlen, by rw [Integer.encode_single u e s bs hlen, hunp]⟩

/-- Witness for C9: the round trip at `v = -1`, 8-bit signed big endian. -/
theorem C9_integer_roundtrip_witness :
    getMinStorageValue UnitSize.SIZE_8 Sign.signed ≤ (-1 : Int) ∧
    (-1 : Int) ≤ getMaxStorageValue UnitSize.SIZE_8 Sign.signed ∧
    ∃ bs, Integer.decode (-1) UnitSize.SIZE_8 Endianness.big Sign.signed = some bs ∧
      bs.length = UnitSize.SIZE_8.value / 8 ∧
      Integer.encode bs UnitSize.SIZE_8 Endianness.big Sign.signed = -1 :=
  ⟨by decide, by decide,
    C9_integer_roundtrip UnitSize.SIZE_8 Endianness.big Sign.signed (-1)
      (by decide) (by decide)⟩

/-! ## Claim C1 -/

/-- A type accepting exactly the 2-bit slices, for the C1 input. -/
def leafTypeEx : DataTypeSpec := ⟨2, 2, fun _ => true⟩

/-- A path-local state where the leaf is already defined as `11` while
the cursor holds `00`. -/
def leafStateEx : LeafState := ⟨[false, false], some [true, true]⟩

/-- Claim C1 as stated is false at a concrete input: for a MESSAGE leaf
already defined as `11` in the path-local memory, parsing the cursor
`00` succeeds and re-learns `00` (the dispatch in
`AbstractVariableLeaf.parse` sends a defined MESSAGE leaf to `learn`,
not to `valueCMP`), whereas the valueCMP behaviour the claim describes
would reject this input. -/
theorem C1_counterexample :
    ¬ (∀ r ∈ AbstractVariableLeaf.parse Scope.MESSAGE leafTypeEx leafStateEx,
        r.1 = [true, true]) ∧
    AbstractVariableLeaf.parse Scope.MESSAGE leafTypeEx leafStateEx =
      [([false, false], ⟨[], some [false, false]⟩)] ∧
    Data.valueCMP leafStateEx = [] := by
  decide

/-- Claim C1 (amended): for a Data leaf with scope MESSAGE that is
already defined, `parse` dispatches to `learn` — it re-learns a fresh
value (any slice the type accepts) and memorizes it, instead of
requiring the next bits to equal the memorized value; only defined
CONSTANT and SESSION leaves get the valueCMP behaviour. -/
theorem C1_message_defined_relearns (t : DataTypeSpec) (st : LeafState)
    (hdef : st.memory.isSome = true) :
    AbstractVariableLeaf.parse Scope.MESSAGE t st = Data.learn t st ∧
    AbstractVariableLeaf.parse Scope.CONSTANT t st = Data.valueCMP st ∧
    AbstractVariableLeaf.parse Scope.SESSION t st = Data.valueCMP st ∧
    (∀ r ∈ Data.learn t st, r.2.memory = some r.1) := by
  refine ⟨?_, ?_, ?_, ?_⟩
  · simp [AbstractVariableLeaf.parse, AbstractVariableLeaf.parseDispatch, hdef]
  · simp [AbstractVariableLeaf.parse, AbstractVariableLeaf.parseDispatch, hdef]
  · simp [AbstractVariableLeaf.parse, AbstractVariableLeaf.parseDispatch, hdef]
  · intro r hr
    simp only [Data.learn, List.mem_filterMap] at hr
    obtain ⟨len, _, hr⟩ := hr
    by_cases ha : t.accept (st.remaining.take len) = true
    · simp only [ha, if_true] at hr
      injection hr with hr
      rw [← hr]
    · simp [ha] at hr

/-- Witness for C1: the amended dispatch at the C1 input. -/
theorem C1_message_defined_relearns_witness :
    leafStateEx.memory.isSome = true ∧
    (AbstractVariableLeaf.parse Scope.MESSAGE leafTypeEx leafStateEx =
        Data.learn leafTypeEx leafStateEx ∧
      AbstractVariableLeaf.parse Scope.CONSTANT leafTypeEx leafStateEx =
        Data.valueCMP leafStateEx ∧
      AbstractVariableLeaf.parse Scope.SESSION leafTypeEx leafStateEx =
        Data.valueCMP leafStateEx ∧
      (∀ r ∈ Data.learn leafTypeEx leafStateEx, r.2.memory = some r.1)) :=
  ⟨rfl, C1_message_defined_relearns leafTypeEx leafStateEx rfl⟩

/-! ## Claim C2 -/

/-- Child parse behaviour for the C2 input: child 1 parses `1`, child 2
parses `0`, both succeed with a single path. -/
def altParseChildEx : Nat → GenericPath → List GenericPath :=
  fun c p => [p.addResult c (if c = 1 then [true] else [false])]

/-- An Alt (variable id 9) with children 1 and 2 and a callback that
selects the child at index 1 (child 2). -/
def altEx : AltVar := ⟨9, [1, 2], some (fun _ _ => 1)⟩

/-- A path carrying data for the Alt variable. -/
def altPathEx : GenericPath := ⟨[(9, [true, false])]⟩

/-- Claim C2 as stated is false at a concrete input: although a
callback selecting the child at index 1 (whose parse yields bits `0`)
is present, `Alt.parse` still recurses on every child and yields both
children's successes — the first yielded path carries child 1's bits
`1`, so parsing is not restricted to the callback-selected child (the
callback is consulted only by `Alt.specialize`). -/
theorem C2_counterexample :
    ¬ (∀ q ∈ Alt.parse altEx altParseChildEx altPathEx,
        q.getData 9 = [false]) ∧
    (Alt.parse altEx altParseChildEx altPathEx).map (fun q => q.getData 9) =
      [[true], [false]] := by
  decide

/-- Claim C2 (amended): `Alt.parse` always duplicates the path once per
child, recurses on every child in declaration order and yields each
child's successes in that order; a stored callback is ignored by
`parse` (it only affects `specialize`), so the result is the
concatenation, in declaration order, of the per-child results. -/
theorem C2_parse_ignores_callback (i : Nat) (children : List Nat)
    (cbk : Option (GenericPath → List Nat → Int))
    (childParse : Nat → GenericPath → List GenericPath) (path : GenericPath) :
    Alt.parse ⟨i, children, cbk⟩ childParse path =
      Alt.parse ⟨i, children, none⟩ childParse path ∧
    Alt.parse ⟨i, children, cbk⟩ childParse path =
      (children.map (fun c => Alt.parse ⟨i, [c], none⟩ childParse path)).flatten := by
  refine ⟨rfl, ?_⟩
  induction children with
  | nil => rfl
  | cons c cs ih =>
    simp only [Alt.parse] at ih ⊢
    simp only [List.flatMap_cons, List.map_cons, List.flatten_cons, ih,
      List.flatMap_cons, List.flatMap_nil, List.append_nil]

/-- Claim C6 (amended): each call to `AlternativeMutator.generate`
increments the per-Alt depth counter; a call raises `RecursionException`
exactly when the incremented counter has reached `max_depth` = D; and
consequently, starting from a fresh mutator, `generate` succeeds exactly
`min n (D - 1)` times over `n` calls — in particular it cannot succeed
more than D - 1 times, so a self-referential Alt terminates within D
recursive entries. -/
theorem C6_depth_bound (D d pos : Nat) :
    (AlternativeMutator.generate D d pos).2 = d + 1 ∧
    ((AlternativeMutator.generate D d pos).1 = none ↔ D ≤ d + 1) ∧
    (∀ n, AlternativeMutator.run D 0 n = min n (D - 1)) := by
  refine ⟨AlternativeMutator.generate_snd D d pos, ?_, ?_⟩
  · unfold AlternativeMutator.generate
    by_cases h : D ≤ d + 1 <;> simp [h]
  · intro n
    have := AlternativeMutator.run_eq D n 0
    simpa using this

end Netzob
